import Mathlib

/-!
# Two-tower recommendation system: shallow embedding

Verification development for a JavaScript two-tower recommendation engine
consisting of two parallel pipelines:

* a **music** pipeline (`musicrec.js`, class `MusicRecommendationSystem`):
  128-dimension embeddings, implicit engagement signals
  (completion rate, like/skip flags, repeat counts, ratings);
* a **movie** pipeline (`build.js`, class `MovieRecommendationSystem`):
  64-dimension embeddings, explicit star ratings with collaborative signals.

Modelling conventions:

* JavaScript strings are modelled as `List Char` (`Str`); `toLowerCase` is
  `List.map Char.toLower`, `trim` strips whitespace from both ends.
* JavaScript number arithmetic is modelled as exact arithmetic: record
  fields parsed with `parseFloat`/`parseInt` are `ℚ` / `ℤ` (a failed parse,
  i.e. `NaN`, is `none`), and embedding coordinates are `ℝ` (needed for
  `Math.sqrt`, `Math.sin`, `Math.cos`).
* The JS idiom `parseFloat(x) || d` (default on `NaN` **and on 0**, since 0
  is falsy) is `jsOrQ` / `jsOrZ`.
* JS arrays of fixed dimension holding the embeddings are modelled as
  functions `ℕ → ℝ` (`Vec`) together with the ambient dimension; `vec[i] = x`
  is `setv`, `vec[i] += x` is `updv`.  All writes performed by the encoders
  stay below the ambient dimension, and sums (`reduce`) range over it.
* JS objects used as string-keyed maps are association lists; assignment
  semantics (last write wins) is captured by `objGet`, which returns the
  *last* binding for a key; `[...new Set(l)]` is `jsSetDedup` (keeps the
  first occurrence of each element, in order).
* `Array.prototype.sort` with comparator `(a,b) => key(b) - key(a)` is the
  stable descending insertion sort `sortDescBy`.
-/

noncomputable section

/-- JavaScript strings, modelled as lists of characters. -/
abbrev Str := List Char

/-- UTF-16 code unit of a character (`charCodeAt`); for the ASCII data the
pipelines handle this agrees with the code point. -/
def charCode (c : Char) : ℕ := c.toNat

/-- `String.prototype.toLowerCase`. -/
def jsToLower (s : Str) : Str := s.map Char.toLower

/-- `String.prototype.trim`: strip whitespace from both ends. -/
def jsTrim (s : Str) : Str :=
  ((s.dropWhile Char.isWhitespace).reverse.dropWhile Char.isWhitespace).reverse

/-- The JS defaulting idiom `parseFloat(x) || d`: a failed parse (`none`,
i.e. `NaN`) or a parsed value of `0` (falsy) both yield the default. -/
def jsOrQ (o : Option ℚ) (d : ℚ) : ℚ :=
  match o with
  | none => d
  | some x => if x = 0 then d else x

/-- The JS defaulting idiom `parseInt(x) || d` for integer fields. -/
def jsOrZ (o : Option ℤ) (d : ℤ) : ℤ :=
  match o with
  | none => d
  | some x => if x = 0 then d else x

/-- Embedding vectors: real-valued coordinates indexed by `ℕ`. The ambient
dimension (128 for music, 64 for movies) is passed where sums are taken. -/
def Vec := ℕ → ℝ

/-- The all-zero vector (`Array(dim).fill(0)`). -/
def zeroVec : Vec := fun _ => 0

/-- `vec[i] = x` (assignment). -/
def setv (v : Vec) (i : ℕ) (x : ℝ) : Vec := fun j => if j = i then x else v j

/-- `vec[i] += x` (additive update). -/
def updv (v : Vec) (i : ℕ) (x : ℝ) : Vec := fun j => if j = i then v j + x else v j

/-- `vec.reduce((s, x) => s + x * x, 0)` over a `dim`-element array. -/
def sumSq (dim : ℕ) (v : Vec) : ℝ := ∑ i ∈ Finset.range dim, v i * v i

/-- The dot product accumulated by `cosineSimilarity`'s loop. -/
def dotP (dim : ℕ) (a b : Vec) : ℝ := ∑ i ∈ Finset.range dim, a i * b i

/-- `cosineSimilarity(a, b)` on two vectors of the same ambient dimension:
`dot / (Math.sqrt(magA) * Math.sqrt(magB) || 1)` — the `|| 1` guard replaces
a zero denominator by 1.  Both pipelines use this formula (`musicrec.js`
lines 285–293, `build.js` lines 549–559); the movie variant's extra
length-mismatch guard is modelled separately on lists
(`movieCosineSimList`), since inside the pipelines every vector shares the
ambient dimension. -/
def cosineSim (dim : ℕ) (a b : Vec) : ℝ :=
  let dot := dotP dim a b
  let den := Real.sqrt (sumSq dim a) * Real.sqrt (sumSq dim b)
  dot / (if den = 0 then 1 else den)

/-- `normalizeVector` (`build.js` lines 342–345): divide by the Euclidean
norm, substituting 1 when the norm is 0. -/
def normalizeVector (dim : ℕ) (v : Vec) : Vec :=
  let m := Real.sqrt (sumSq dim v)
  let m' := if m = 0 then 1 else m
  fun j => v j / m'

/-- Last-write-wins lookup in an association list: the access semantics of a
JS object built by repeated key assignment. -/
def objGet {α : Type} (l : List (Str × α)) (k : Str) : Option α :=
  l.foldl (fun acc p => if p.1 = k then some p.2 else acc) none

/-- `[...new Set(l)]`: deduplicate keeping the first occurrence of each
element, preserving order. -/
def jsSetDedup {α : Type} [DecidableEq α] (l : List α) : List α :=
  l.foldl (fun acc x => if x ∈ acc then acc else acc ++ [x]) []

/-- Insert into a descending-sorted list (strictly-greater goes in front),
keeping ties in arrival order. -/
def insertDescBy {α : Type} {β : Type} [LT β] [DecidableRel (α := β) (· < ·)]
    (key : α → β) (x : α) : List α → List α
  | [] => [x]
  | y :: l => if key y < key x then x :: y :: l else y :: insertDescBy key x l

/-- Stable descending sort by a key, modelling
`arr.sort((a, b) => key(b) - key(a))`. -/
def sortDescBy {α : Type} {β : Type} [LT β] [DecidableRel (α := β) (· < ·)]
    (key : α → β) (l : List α) : List α :=
  l.foldl (fun acc x => insertDescBy key x acc) []

/-! ## Feature hashers -/

/-- Loop body of the music `hashToVector` (`musicrec.js` lines 138–144):
for each character, `vec[(offset + i) % vec.length] += (code / 255) * weight`.
`pos` carries `offset + i`. -/
def musicHashChars (dim : ℕ) : Str → ℕ → ℝ → Vec → Vec
  | [], _, _, v => v
  | c :: cs, pos, w, v =>
      musicHashChars dim cs (pos + 1) w (updv v (pos % dim) ((charCode c : ℝ) / 255 * w))

/-- Music `hashToVector(str, vec, offset, weight)`: lowercases the string and
distributes character codes, wrapping modulo the **whole vector length**. -/
def hashToVector (dim : ℕ) (str : Str) (v : Vec) (offset : ℕ) (w : ℝ) : Vec :=
  musicHashChars dim (jsToLower str) offset w v

/-- Loop body of the movie `hashToVector` (`build.js` lines 312–318): the
loop `for (i = 0; i < text.length && (offset + i) < vec.length; i++)` stops
at the first character with `offset + i ≥ vec.length` (the bound is
monotone, so this models the `&&` condition exactly), and each processed
character goes to `vec[offset + (i % 16)]`. -/
def movieHashChars (dim : ℕ) : Str → ℕ → ℕ → ℝ → Vec → Vec
  | [], _, _, _, v => v
  | c :: cs, offset, i, w, v =>
      if offset + i < dim then
        movieHashChars dim cs offset (i + 1) w
          (updv v (offset + i % 16) ((charCode c : ℝ) / 255 * w))
      else v

/-- Movie `hashToVector(str, vec, offset, weight)`: lowercases and writes
into the 16-wide band at `offset`, but truncates once `offset + i` passes
the end of the vector. -/
def movieHashToVector (dim : ℕ) (str : Str) (v : Vec) (offset : ℕ) (w : ℝ) : Vec :=
  movieHashChars dim (jsToLower str) offset 0 w v

/-- A hasher that follows the specification's words instead of the code
("distributes the string's character codes across a fixed-size band of
coordinates starting at `offset`, wrapping modulo the band length, each
character contributing `(code / 255) * weight`"): **every** character `i` of
the lowercased string lands at `offset + (i % 16)`, the movie pipeline's
16-wide band, with no truncation.  Used only to compare the claimed contract
with the implementations. -/
def specHashChars : Str → ℕ → ℕ → ℝ → Vec → Vec
  | [], _, _, _, v => v
  | c :: cs, offset, i, w, v =>
      specHashChars cs offset (i + 1) w
        (updv v (offset + i % 16) ((charCode c : ℝ) / 255 * w))

/-- Spec-worded hasher, entry point (see `specHashChars`). -/
def specHashToVector (str : Str) (v : Vec) (offset : ℕ) (w : ℝ) : Vec :=
  specHashChars (jsToLower str) offset 0 w v

/-! ## Music pipeline (`musicrec.js`, class `MusicRecommendationSystem`) -/

/-- A catalog song, with the fields `createSongEmbedding` reads.  The source
accepts two naming conventions per field (`song.title || song.Song_Title`);
following the spec's §9 note this is modelled as one canonical record, the
fallback resolution being part of the (out-of-scope) ingestion boundary.
Numeric fields hold the `parseFloat`/`parseInt` result, `none` for a failed
parse (`NaN`). -/
structure Song where
  title : Str := []
  artist : Str := []
  genre : Str := []
  subGenre : Str := []
  language : Str := []
  mood : Str := []
  activity : Str := []
  weather : Str := []
  location : Str := []
  releaseYear : Option ℤ := none
  duration : Option ℚ := none
  completionRate : Option ℚ := none
  rating : Option ℚ := none
  likedFlag : Option ℤ := none
  repeatCount : Option ℤ := none
  skipFlag : Option ℤ := none
  addedToPlaylist : Option ℤ := none
  hourOfDay : Option ℤ := none
  weekendFlag : Option ℤ := none

/-- `makeSongId` (`musicrec.js` lines 123–127): normalized
`title::artist` composite key.  The `JSON.stringify(song)` fallback for a
song with empty title *and* empty artist is modelled as the concatenation of
the raw title and artist (no claim exercises that branch). -/
def makeSongId (title artist : Str) : Str :=
  let t := jsToLower (jsTrim title)
  let a := jsToLower (jsTrim artist)
  if t = [] ∧ a = [] then title ++ artist else t ++ [':', ':'] ++ a

/-- `createSongEmbedding(song)` (`musicrec.js` lines 171–209): the item
tower.  Text bands via `hashToVector` (modulo-128 wrapping), then scalar
features assigned at coordinates 112–122, then weather/location bands. -/
def createSongEmbedding (s : Song) : Vec :=
  let v := zeroVec
  let v := hashToVector 128 s.title v 0 (3/2)
  let v := hashToVector 128 s.artist v 16 (3/2)
  let v := hashToVector 128 s.genre v 32 2
  let v := hashToVector 128 s.subGenre v 48 (3/2)
  let v := hashToVector 128 s.language v 64 1
  let v := hashToVector 128 s.mood v 80 (9/5)
  let v := hashToVector 128 s.activity v 96 (3/2)
  let releaseYear := jsOrZ s.releaseYear 2020
  let v := setv v 112 ((((releaseYear : ℚ) - 1950) / 100 : ℚ) : ℝ)
  let duration := jsOrQ s.duration 200
  let v := setv v 113 ((duration / 600 : ℚ) : ℝ)
  let v := setv v 114 ((jsOrQ s.completionRate (1/2) : ℚ) : ℝ)
  let v := setv v 115 ((jsOrQ s.rating 3 / 5 : ℚ) : ℝ)
  let v := setv v 116 ((jsOrZ s.likedFlag 0 : ℤ) : ℝ)
  let v := setv v 117 (((min (jsOrZ s.repeatCount 0) 5 : ℤ) : ℝ) / 5)
  let v := setv v 118 (1 - ((jsOrZ s.skipFlag 0 : ℤ) : ℝ))
  let v := setv v 119 ((jsOrZ s.addedToPlaylist 0 : ℤ) : ℝ)
  let hour := jsOrZ s.hourOfDay 12
  let v := setv v 120 (Real.sin (2 * Real.pi * (hour : ℝ) / 24))
  let v := setv v 121 (Real.cos (2 * Real.pi * (hour : ℝ) / 24))
  let v := setv v 122 ((jsOrZ s.weekendFlag 0 : ℤ) : ℝ)
  let v := hashToVector 128 s.weather v 123 (4/5)
  let v := hashToVector 128 s.location v 126 (1/2)
  v

/-- `trainSongEmbeddings` (`musicrec.js` lines 215–221): one table entry per
catalog song, keyed by `makeSongId`; duplicate keys resolve last-write-wins
via `objGet`. -/
def trainSongEmbeddings (songs : List Song) : List (Str × Vec) :=
  songs.map fun s => (makeSongId s.title s.artist, createSongEmbedding s)

/-- One listening-history record, with the fields `createUserEmbedding`
reads (same canonical-naming convention as `Song`). -/
structure HistRecord where
  title : Str := []
  artist : Str := []
  completionRate : Option ℚ := none
  rating : Option ℚ := none
  likedFlag : Option ℤ := none
  skipFlag : Option ℤ := none
  repeatCount : Option ℤ := none

/-- The engagement weight of one history record (`musicrec.js` lines
247–259):
`weight = 1 * (0.5 + completionRate) * (0.6 + rating * 0.8) + liked * 0.5
 + min(repeatCount, 3) * 0.3`, multiplied by `0.3` when the record is
flagged as skipped (`skipped ? 0.3 : 1.0`, any non-zero parse is truthy). -/
def recWeight (r : HistRecord) : ℚ :=
  let completionRate := jsOrQ r.completionRate (1/2)
  let rating := jsOrQ r.rating 3 / 5
  let liked := jsOrZ r.likedFlag 0
  let skipped := jsOrZ r.skipFlag 0
  let repeated := min (jsOrZ r.repeatCount 0) 3
  let w := 1 * (1/2 + completionRate) * (3/5 + rating * (4/5))
    + (liked : ℚ) * (1/2) + (repeated : ℚ) * (3/10)
  if skipped = 0 then w else w * (3/10)

/-- The aggregation loop of `createUserEmbedding` (`musicrec.js` lines
242–266): fold over the history, skipping records whose `makeSongId` is not
a key of the embedding table, accumulating `weight * emb` coordinate-wise
together with the total weight. -/
def aggPair (table : List (Str × Vec)) (history : List HistRecord) : Vec × ℚ :=
  history.foldl
    (fun acc r =>
      match objGet table (makeSongId r.title r.artist) with
      | none => acc
      | some emb =>
          let w := recWeight r
          (fun j => acc.1 j + emb j * (w : ℝ), acc.2 + w))
    (zeroVec, 0)

/-- `createUserEmbedding(history)` (`musicrec.js` lines 238–273): aggregate,
return the zero vector when the total weight is 0 (`if (!totalWeight)`),
otherwise divide by `Math.sqrt(sum of squares) || 1`. -/
def createUserEmbedding (table : List (Str × Vec)) (history : List HistRecord) : Vec :=
  let p := aggPair table history
  if p.2 = 0 then zeroVec
  else
    let m := Real.sqrt (sumSq 128 p.1)
    let m' := if m = 0 then 1 else m
    fun j => p.1 j / m'

/-- One entry of `recommendSongs`' result list.  The display-only metadata
fields (title, artist, album, genre, mood strings copied from the catalog
row) are omitted; `id` and `similarity_score` are what the ranking and the
claims are about. -/
structure SongRec where
  id : Str
  similarity_score : ℝ

/-- `recommendSongs(userId, limit)` (`musicrec.js` lines 312–347), with the
awaited history passed explicitly (the Firestore fetch is the out-of-scope
boundary) and the embedding table freshly trained from the catalog, which is
the state reached through the documented flow (`this.songEmbeddings` starts
empty and is trained on first use).  Empty catalog or empty history yield
`[]`; otherwise every song is scored against the user embedding (score 0
when its embedding is missing) and the list is sorted descending by score
and truncated to `limit`. -/
def recommendSongs (songs : List Song) (history : List HistRecord) (limit : ℕ) :
    List SongRec :=
  if songs.isEmpty then []
  else
    let table := trainSongEmbeddings songs
    if history.isEmpty then []
    else
      let userEmb := createUserEmbedding table history
      let results := songs.map fun s =>
        let id := makeSongId s.title s.artist
        { id := id
          similarity_score :=
            match objGet table id with
            | some emb => cosineSim 128 userEmb emb
            | none => 0 : SongRec }
      (sortDescBy (·.similarity_score) results).take limit

/-! ## Movie pipeline (`build.js`, class `MovieRecommendationSystem`) -/

/-- One normalized rating record as produced by `processRatings`
(`build.js` lines 196–210): `userId`/`movieId` stringified, `rating` the
parsed float, `timestamp` the parsed integer (in the source's data format,
seconds). -/
structure MovieRating where
  userId : Str
  movieId : Str
  rating : ℚ
  timestamp : ℚ

/-- One normalized movie-metadata record as produced by `processMovies`
(`build.js` lines 218–227). -/
structure MovieMeta where
  movieId : Str
  title : Str := []
  genres : Str := []
  year : Option ℤ := none

/-- The ratings stored for one movie by `buildMovieStats` (`build.js` lines
267–299): pushed in input order, so the list is the in-order filter. -/
def statRatings (rs : List MovieRating) (m : Str) : List ℚ :=
  (rs.filter fun r => r.movieId == m).map (·.rating)

/-- `movieStats[m].highRatingUsers`: users who rated `m` at least 4, in
input order. -/
def highRatingUsers (rs : List MovieRating) (m : Str) : List Str :=
  (rs.filter fun r => r.movieId == m && decide (4 ≤ r.rating)).map (·.userId)

/-- `movieStats[m].lowRatingUsers`: users who rated `m` at most 2. -/
def lowRatingUsers (rs : List MovieRating) (m : Str) : List Str :=
  (rs.filter fun r => r.movieId == m && decide (r.rating ≤ 2)).map (·.userId)

/-- A movie has a statistics entry iff some rating references it
(`buildMovieStats` creates entries only for rated movie ids). -/
def hasStats (rs : List MovieRating) (m : Str) : Bool :=
  rs.any fun r => r.movieId == m

/-- Mean of a list of rationals (`reduce((a,b) => a+b, 0) / length`); only
ever applied to non-empty lists by the statistics builder. -/
def listAvg (l : List ℚ) : ℚ := l.sum / l.length

/-- `movieStats[m].avgRating`. -/
def statAvg (rs : List MovieRating) (m : Str) : ℚ := listAvg (statRatings rs m)

/-- `hashUser`'s 32-bit wrap (`hash |= 0`): reduce into `[-2^31, 2^31)`. -/
def wrap32 (x : ℤ) : ℤ := (x + 2 ^ 31) % 2 ^ 32 - 2 ^ 31

/-- One step of `hashUser`'s loop (`build.js` lines 327–335):
`hash = ((hash << 5) - hash) + charCode; hash |= 0`.  The shift itself
operates on 32 bits, the subtraction and addition are exact (doubles), then
`|= 0` wraps back to a signed 32-bit integer. -/
def hashUserStep (h : ℤ) (c : Char) : ℤ :=
  wrap32 (wrap32 (h * 32) - h + charCode c)

/-- `hashUser(userId)`: deterministic hash of a user id into `[0, 1)`
(`Math.abs(hash) % 1000 / 1000`). -/
def hashUser (s : Str) : ℚ := ((|s.foldl hashUserStep 0| % 1000 : ℤ) : ℚ) / 1000

/-- `bins[b]` of `createMovieEmbedding`'s rating histogram: the number of
ratings `r` with `min(Math.floor(r) - 1, 4) = b` (the `binIdx >= 0` guard is
implied for the used bins `b ∈ [0,4]`). -/
def binCount (ratings : List ℚ) (b : ℤ) : ℕ :=
  (ratings.filter fun r => min (⌊r⌋ - 1) 4 == b).length

/-- Minimum of a non-empty rational list (`Math.min(...l)`). -/
def qMin : List ℚ → ℚ
  | [] => 0
  | x :: xs => xs.foldl min x

/-- Maximum of a non-empty rational list (`Math.max(...l)`). -/
def qMax : List ℚ → ℚ
  | [] => 0
  | x :: xs => xs.foldl max x

/-- The collaborative band write of `createMovieEmbedding` (`build.js`
lines 392–395): `users.slice(0,20).forEach((userId, idx) =>
vec[10 + idx] = hashUser(userId))`, with `idx` starting at `base`. -/
def collabFill : List Str → ℕ → Vec → Vec
  | [], _, v => v
  | u :: us, idx, v => collabFill us (idx + 1) (setv v (10 + idx) ((hashUser u : ℚ) : ℝ))

/-- The histogram and statistical-feature writes of
`createMovieEmbedding(movieId)` (`build.js` lines 373–390): the normalized
star histogram at coords 0–4 and the five statistical features at 5–9. -/
def movieStatsScalars (rs : List MovieRating) (m : Str) : Vec :=
  let ratings := statRatings rs m
  let total : ℚ := if (ratings.length : ℚ) = 0 then 1 else ratings.length
  let v := zeroVec
  let v := setv v 0 (((binCount ratings 0 : ℚ) / total : ℚ) : ℝ)
  let v := setv v 1 (((binCount ratings 1 : ℚ) / total : ℚ) : ℝ)
  let v := setv v 2 (((binCount ratings 2 : ℚ) / total : ℚ) : ℝ)
  let v := setv v 3 (((binCount ratings 3 : ℚ) / total : ℚ) : ℝ)
  let v := setv v 4 (((binCount ratings 4 : ℚ) / total : ℚ) : ℝ)
  let v := setv v 5 ((statAvg rs m / 5 : ℚ) : ℝ)
  let v := setv v 6 ((min ((ratings.length : ℚ) / 1000) 1 : ℚ) : ℝ)
  let v := setv v 7 (Real.sqrt (ratings.length : ℝ) / 100)
  let v := setv v 8 ((((highRatingUsers rs m).length : ℚ) / total : ℚ) : ℝ)
  setv v 9 ((1 - ((lowRatingUsers rs m).length : ℚ) / total : ℚ) : ℝ)

/-- The statistics-dependent portion of `createMovieEmbedding(movieId)`
(`build.js` lines 373–417) for a movie that *has* a statistics entry: the
scalar block (`movieStatsScalars`, coords 0–9), collaborative band (10–29),
genre band (32–47) and temporal features (48–49), i.e. everything the
encoder writes before the final movie-id hash.  `nowMs` is the
evaluation-time `Date.now()` value, passed explicitly. -/
def movieEmbeddingStats (rs : List MovieRating) (movies : List MovieMeta)
    (nowMs : ℚ) (m : Str) : Vec :=
  let v := movieStatsScalars rs m
  -- collaborative signals
  let v := collabFill ((highRatingUsers rs m).take 20) 0 v
  -- genre band
  let v :=
    match movies.find? (fun mv => mv.movieId == m) with
    | some mv => if mv.genres = [] then v else movieHashToVector 64 mv.genres v 32 1
    | none => v
  -- temporal features
  let movieRatings := rs.filter fun r => r.movieId == m
  if movieRatings.length = 0 then v
  else
    let ts := movieRatings.map (·.timestamp)
    let timeSpanYears := (qMax ts - qMin ts) / (1000 * 60 * 60 * 24 * 365)
    let v := setv v 48 ((min (timeSpanYears / 10) 1 : ℚ) : ℝ)
    let oneYearAgo := nowMs / 1000 - 365 * 24 * 60 * 60
    let recent := movieRatings.filter fun r => decide (oneYearAgo < r.timestamp)
    setv v 49 (((recent.length : ℚ) / movieRatings.length : ℚ) : ℝ)

/-- `createMovieEmbedding(movieId)` (`build.js` lines 367–423): the movie
item tower.  Returns the all-zero vector when the movie has no statistics
entry (`if (!stat) return vec;`); otherwise writes the statistics-dependent
features (`movieEmbeddingStats`) and finally the movie-id hash band at
offset 56 with weight 0.5 (cold-start regularization). -/
def createMovieEmbedding (rs : List MovieRating) (movies : List MovieMeta)
    (nowMs : ℚ) (m : Str) : Vec :=
  if !hasStats rs m then zeroVec
  else movieHashToVector 64 m (movieEmbeddingStats rs movies nowMs m) 56 (1/2)

/-- `trainMovieEmbeddings` (`build.js` lines 527–537): one table entry per
*rated* movie id (`[...new Set(this.ratings.map(r => r.movieId))]`), keyed
by id. -/
def trainMovieEmbeddings (rs : List MovieRating) (movies : List MovieMeta)
    (nowMs : ℚ) : List (Str × Vec) :=
  (jsSetDedup (rs.map (·.movieId))).map fun m => (m, createMovieEmbedding rs movies nowMs m)

/-- The anti-pattern subtraction of the movie `createUserEmbedding`
(`build.js` lines 486–493): for each disliked movie with an embedding,
`vec[i] -= emb[i] * 0.3` for `i ∈ [32, 40)`. -/
def antiPattern (table : List (Str × Vec)) (disliked : List MovieRating) (v : Vec) : Vec :=
  disliked.foldl
    (fun acc r =>
      match objGet table r.movieId with
      | none => acc
      | some emb => fun j => if 32 ≤ j ∧ j < 40 then acc j - emb j * (3/10) else acc j)
    v

/-- One genre bucket of `genreScores`: running rating sum and count. -/
abbrev GenreScore := Str × ℚ × ℕ

/-- Upsert into the `genreScores` object, preserving first-encounter key
order (JS object property order for the non-integer-like genre names). -/
def gsAdd (l : List GenreScore) (g : Str) (rating : ℚ) : List GenreScore :=
  if l.any (fun p => p.1 == g) then
    l.map fun p => if p.1 == g then (p.1, p.2.1 + rating, p.2.2 + 1) else p
  else l ++ [(g, rating, 1)]

/-- `genreScores` accumulation (`build.js` lines 496–506): for each of the
user's ratings whose movie has metadata with a non-empty genre string, add
the rating into the bucket of every `'|'`-separated genre. -/
def genreScores (movies : List MovieMeta) (prof : List MovieRating) : List GenreScore :=
  prof.foldl
    (fun acc r =>
      match movies.find? (fun mv => mv.movieId == r.movieId) with
      | none => acc
      | some mv =>
          if mv.genres = [] then acc
          else (mv.genres.splitOn '|').foldl (fun a g => gsAdd a g r.rating) acc)
    []

/-- The genre-preference writes (`build.js` lines 508–512):
`vec[48 + idx] = (sum / count) / 5` for the first 8 entries. -/
def writeGenres : List GenreScore → ℕ → Vec → Vec
  | [], _, v => v
  | (_, s, c) :: rest, idx, v =>
      writeGenres rest (idx + 1) (setv v (48 + idx) (((s / c) / 5 : ℚ) : ℝ))

/-- The movie `createUserEmbedding(userId)` **before** its final
`normalizeVector` call (`build.js` lines 443–514).  Returns the zero vector
when the user has no ratings. -/
def movieUserPre (rs : List MovieRating) (movies : List MovieMeta)
    (table : List (Str × Vec)) (u : Str) : Vec :=
  let prof := rs.filter fun r => r.userId == u
  if prof.length = 0 then zeroVec
  else
    let cnt : ℚ := prof.length
    let vals := prof.map (·.rating)
    let avg := listAvg vals
    let variance := ((vals.map fun r => (r - avg) ^ 2).sum) / cnt
    let likes := (prof.filter fun r => decide (4 ≤ r.rating)).length
    let dislikes := (prof.filter fun r => decide (r.rating ≤ 2)).length
    let v := zeroVec
    let v := setv v 0 ((avg / 5 : ℚ) : ℝ)
    let v := setv v 1 (Real.sqrt ((variance : ℚ) : ℝ) / 2)
    let v := setv v 2 ((min (cnt / 500) 1 : ℚ) : ℝ)
    let v := setv v 3 (((likes : ℚ) / cnt : ℚ) : ℝ)
    let v := setv v 4 (((dislikes : ℚ) / cnt : ℚ) : ℝ)
    -- aggregate embeddings of highly-rated movies: top 30 by rating
    let likedMovies :=
      (sortDescBy (·.rating) (prof.filter fun r => decide (4 ≤ r.rating))).take 30
    let p := likedMovies.foldl
      (fun (acc : Vec × ℚ) r =>
        match objGet table r.movieId with
        | none => acc
        | some emb =>
            let w := (r.rating - 3) / 2
            (fun j => acc.1 j + emb j * ((w : ℚ) : ℝ), acc.2 + w))
      (v, 0)
    let totalWeight := p.2
    -- normalize the aggregated portion: vec[i] /= totalWeight for i in [5, 64)
    let v :=
      if 0 < totalWeight then
        fun j => if 5 ≤ j ∧ j < 64 then p.1 j / ((totalWeight : ℚ) : ℝ) else p.1 j
      else p.1
    -- anti-pattern from up to 10 disliked movies
    let v := antiPattern table ((prof.filter fun r => decide (r.rating ≤ 2)).take 10) v
    -- genre preferences
    writeGenres ((genreScores movies prof).take 8) 0 v

/-- The movie `createUserEmbedding(userId)` (`build.js` lines 443–515):
pre-normalization layout followed by `normalizeVector`. -/
def movieUserEmbedding (rs : List MovieRating) (movies : List MovieMeta)
    (table : List (Str × Vec)) (u : Str) : Vec :=
  normalizeVector 64 (movieUserPre rs movies table u)

/-- The movie `cosineSimilarity(a, b)` on raw arrays (`build.js` lines
549–559), including the `if (!a || !b || a.length !== b.length) return 0;`
guard (null arguments are not representable for lists and are not
modelled). -/
def movieCosineSimList (a b : List ℝ) : ℝ :=
  if a.length ≠ b.length then 0
  else
    let dot := ∑ i ∈ Finset.range a.length, a.getD i 0 * b.getD i 0
    let magA := ∑ i ∈ Finset.range a.length, a.getD i 0 * a.getD i 0
    let magB := ∑ i ∈ Finset.range a.length, b.getD i 0 * b.getD i 0
    let den := Real.sqrt magA * Real.sqrt magB
    dot / (if den = 0 then 1 else den)

/-- The music `cosineSimilarity(a, b)` on raw arrays (`musicrec.js` lines
285–293): no length guard, the loop runs over `a.length`.  Faithful whenever
`a.length ≤ b.length`; when `a` is longer, the JS code reads `undefined`
beyond `b`'s end and produces `NaN`, which `ℝ` cannot represent (out-of-range
reads are modelled as 0), so theorems about mismatched lengths are stated
under `a.length ≤ b.length`. -/
def musicCosineSimList (a b : List ℝ) : ℝ :=
  let dot := ∑ i ∈ Finset.range a.length, a.getD i 0 * b.getD i 0
  let magA := ∑ i ∈ Finset.range a.length, a.getD i 0 * a.getD i 0
  let magB := ∑ i ∈ Finset.range a.length, b.getD i 0 * b.getD i 0
  let den := Real.sqrt magA * Real.sqrt magB
  dot / (if den = 0 then 1 else den)

/-- `predictRating` (`build.js` lines 569–576):
`clamp(avgRating + (similarity - 0.5) * 2, 1, 5)` with the
`movieStat?.avgRating || 3` base (absent stats or a falsy average give 3).
The final `toFixed(1)` decimal-string formatting is display-only and not
modelled. -/
def predictRating (sim : ℝ) (base : ℚ) : ℝ :=
  max 1 (min 5 ((base : ℝ) + (sim - 1/2) * 2))

/-- The `predictRating` base for a movie: `movieStat?.avgRating || 3`. -/
def predictBase (rs : List MovieRating) (m : Str) : ℚ :=
  if hasStats rs m then (if statAvg rs m = 0 then 3 else statAvg rs m) else 3

/-- One entry of `getRecommendations`' result list.  Display-only metadata
(title, genres, year, formatted average, rating count) is omitted; the id,
similarity score and predicted rating are what ranking and the claims are
about. -/
structure MovieRec where
  movieId : Str
  similarity_score : ℝ
  predicted_rating : ℝ

/-- `getRecommendations(userId, limit)` (`build.js` lines 595–633), in the
state reached after `trainMovieEmbeddings`: candidates are the keys of the
embedding table minus the ids the user has already rated, each scored by
cosine similarity against the user embedding, sorted descending and
truncated to `limit`. -/
def getRecommendations (rs : List MovieRating) (movies : List MovieMeta)
    (nowMs : ℚ) (u : Str) (limit : ℕ) : List MovieRec :=
  let table := trainMovieEmbeddings rs movies nowMs
  let ratedMovieIds := (rs.filter fun r => r.userId == u).map (·.movieId)
  let userEmb := movieUserEmbedding rs movies table u
  let candidates :=
    ((table.map Prod.fst).filter fun m => !ratedMovieIds.contains m).map fun m =>
      let movieEmb := (objGet table m).getD zeroVec
      let sim := cosineSim 64 userEmb movieEmb
      { movieId := m
        similarity_score := sim
        predicted_rating := predictRating sim (predictBase rs m) : MovieRec }
  (sortDescBy (·.similarity_score) candidates).take limit

/-! ## Generic lemmas -/

/-- Character code at position `i` of a string, 0 beyond the end. -/
def codeAt (cs : Str) (i : ℕ) : ℕ := (cs.map charCode).getD i 0

theorem codeAt_cons_zero (c : Char) (cs : Str) : codeAt (c :: cs) 0 = charCode c := rfl

theorem codeAt_cons_succ (c : Char) (cs : Str) (i : ℕ) :
    codeAt (c :: cs) (i + 1) = codeAt cs i := rfl

theorem setv_apply (v : Vec) (i : ℕ) (x : ℝ) (j : ℕ) :
    setv v i x j = if j = i then x else v j := rfl

theorem updv_apply (v : Vec) (i : ℕ) (x : ℝ) (j : ℕ) :
    updv v i x j = if j = i then v j + x else v j := rfl

/-- Pointwise characterization of the music hashing loop: character `i`
contributes `(code / 255) * w` to coordinate `(pos + i) % dim`. -/
theorem musicHashChars_apply (dim : ℕ) (cs : Str) (pos : ℕ) (w : ℝ) (v : Vec) (j : ℕ) :
    musicHashChars dim cs pos w v j =
      v j + w * ∑ i ∈ Finset.range cs.length,
        (if (pos + i) % dim = j then (codeAt cs i : ℝ) / 255 else 0) := by
  induction cs generalizing pos v with
  | nil => simp [musicHashChars]
  | cons c rest ih =>
      rw [musicHashChars, ih]
      rw [List.length_cons, Finset.sum_range_succ']
      simp only [codeAt_cons_succ, codeAt_cons_zero, updv_apply, Nat.add_zero]
      have harr : ∀ i : ℕ, pos + 1 + i = pos + (i + 1) := by omega
      rw [Finset.sum_congr rfl (fun i _ => by rw [harr i])]
      by_cases hj : j = pos % dim
      · subst hj
        simp only [eq_self_iff_true, if_true]
        ring
      · rw [if_neg hj, if_neg fun h => hj h.symm]
        ring

/-- Pointwise characterization of the movie hashing loop: character `i`
(with the loop counter starting at `i₀`) contributes to coordinate
`offset + ((i₀ + i) % 16)` only when `offset + (i₀ + i) < dim`; because the
loop exits at the first failing index, later characters contribute
nothing. -/
theorem movieHashChars_apply (dim : ℕ) (cs : Str) (offset i₀ : ℕ) (w : ℝ) (v : Vec) (j : ℕ) :
    movieHashChars dim cs offset i₀ w v j =
      v j + w * ∑ i ∈ Finset.range cs.length,
        (if offset + (i₀ + i) < dim ∧ offset + (i₀ + i) % 16 = j then
          (codeAt cs i : ℝ) / 255 else 0) := by
  induction cs generalizing i₀ v with
  | nil => simp [movieHashChars]
  | cons c rest ih =>
      rw [movieHashChars]
      by_cases hguard : offset + i₀ < dim
      · rw [if_pos hguard, ih]
        rw [List.length_cons, Finset.sum_range_succ']
        simp only [codeAt_cons_succ, codeAt_cons_zero, updv_apply, Nat.add_zero]
        have harr : ∀ i : ℕ, i₀ + 1 + i = i₀ + (i + 1) := by omega
        rw [Finset.sum_congr rfl (fun i _ => by rw [harr i])]
        by_cases hj : j = offset + i₀ % 16
        · subst hj
          rw [if_pos rfl, if_pos ⟨hguard, rfl⟩]
          ring
        · rw [if_neg hj, if_neg fun h => hj h.2.symm]
          ring
      · rw [if_neg hguard]
        have hall : ∀ i ∈ Finset.range (c :: rest).length,
            (if offset + (i₀ + i) < dim ∧ offset + (i₀ + i) % 16 = j then
              (codeAt (c :: rest) i : ℝ) / 255 else 0) = 0 := by
          intro i _
          rw [if_neg (by omega)]
        rw [Finset.sum_congr rfl hall]
        simp

/-- Pointwise characterization of the spec-worded hasher: **every**
character `i` contributes to `offset + ((i₀ + i) % 16)`. -/
theorem specHashChars_apply (cs : Str) (offset i₀ : ℕ) (w : ℝ) (v : Vec) (j : ℕ) :
    specHashChars cs offset i₀ w v j =
      v j + w * ∑ i ∈ Finset.range cs.length,
        (if offset + (i₀ + i) % 16 = j then (codeAt cs i : ℝ) / 255 else 0) := by
  induction cs generalizing i₀ v with
  | nil => simp [specHashChars]
  | cons c rest ih =>
      rw [specHashChars, ih]
      rw [List.length_cons, Finset.sum_range_succ']
      simp only [codeAt_cons_succ, codeAt_cons_zero, updv_apply, Nat.add_zero]
      have harr : ∀ i : ℕ, i₀ + 1 + i = i₀ + (i + 1) := by omega
      rw [Finset.sum_congr rfl (fun i _ => by rw [harr i])]
      by_cases hj : j = offset + i₀ % 16
      · subst hj
        rw [if_pos rfl, if_pos rfl]
        ring
      · rw [if_neg hj, if_neg fun h => hj h.symm]
        ring

theorem mem_insertDescBy {α β : Type} [LT β] [DecidableRel (α := β) (· < ·)]
    (key : α → β) (x a : α) (l : List α) :
    a ∈ insertDescBy key x l ↔ a = x ∨ a ∈ l := by
  induction l with
  | nil => simp [insertDescBy]
  | cons y t ih =>
      rw [insertDescBy]
      by_cases h : key y < key x
      · simp [h]
      · simp only [if_neg h, List.mem_cons, ih]
        tauto

theorem mem_sortDescBy {α β : Type} [LT β] [DecidableRel (α := β) (· < ·)]
    (key : α → β) (a : α) (l : List α) :
    a ∈ sortDescBy key l ↔ a ∈ l := by
  suffices h : ∀ acc : List α,
      a ∈ l.foldl (fun acc x => insertDescBy key x acc) acc ↔ a ∈ acc ∨ a ∈ l by
    simpa using h []
  induction l with
  | nil => simp
  | cons x t ih =>
      intro acc
      rw [List.foldl_cons, ih, mem_insertDescBy]
      simp only [List.mem_cons]
      tauto

theorem mem_jsSetDedup {α : Type} [DecidableEq α] (a : α) (l : List α) :
    a ∈ jsSetDedup l ↔ a ∈ l := by
  suffices h : ∀ acc : List α,
      a ∈ l.foldl (fun acc x => if x ∈ acc then acc else acc ++ [x]) acc ↔
        a ∈ acc ∨ a ∈ l by
    simpa [jsSetDedup] using h []
  induction l with
  | nil => simp
  | cons x t ih =>
      intro acc
      rw [List.foldl_cons, ih]
      by_cases hx : x ∈ acc
      · simp only [if_pos hx, List.mem_cons]
        constructor
        · tauto
        · rintro (h | rfl | h) <;> tauto
      · simp only [if_neg hx, List.mem_append, List.mem_singleton, List.mem_cons]
        tauto

theorem sumSq_nonneg (dim : ℕ) (v : Vec) : 0 ≤ sumSq dim v :=
  Finset.sum_nonneg fun i _ => mul_self_nonneg (v i)

theorem sumSq_pos_of (dim : ℕ) (v : Vec) (j : ℕ) (hj : j < dim) (hv : v j ≠ 0) :
    0 < sumSq dim v := by
  have hterm : 0 < v j * v j := mul_self_pos.mpr hv
  have hle : v j * v j ≤ sumSq dim v :=
    Finset.single_le_sum (f := fun i => v i * v i)
      (fun i _ => mul_self_nonneg (v i)) (Finset.mem_range.mpr hj)
  exact lt_of_lt_of_le hterm hle

theorem sumSq_eq_zero_iff (dim : ℕ) (v : Vec) :
    sumSq dim v = 0 ↔ ∀ i < dim, v i = 0 := by
  rw [sumSq, Finset.sum_eq_zero_iff_of_nonneg fun i _ => mul_self_nonneg (v i)]
  constructor
  · intro h i hi
    exact mul_self_eq_zero.mp (h i (Finset.mem_range.mpr hi))
  · intro h i hi
    rw [h i (Finset.mem_range.mp hi), mul_zero]

theorem sumSq_eq_sum_sq (dim : ℕ) (v : Vec) :
    sumSq dim v = ∑ i ∈ Finset.range dim, v i ^ 2 := by
  unfold sumSq
  exact Finset.sum_congr rfl fun i _ => (sq (v i)).symm ▸ (pow_two (v i)).symm ▸ rfl

theorem abs_dotP_le (dim : ℕ) (a b : Vec) :
    |dotP dim a b| ≤ Real.sqrt (sumSq dim a) * Real.sqrt (sumSq dim b) := by
  rw [abs_le]
  constructor
  · have h := Real.sum_mul_le_sqrt_mul_sqrt (Finset.range dim)
      (fun i => -a i) (fun i => b i)
    simp only [neg_sq, neg_mul, Finset.sum_neg_distrib] at h
    rw [sumSq_eq_sum_sq, sumSq_eq_sum_sq]
    unfold dotP
    linarith
  · have h := Real.sum_mul_le_sqrt_mul_sqrt (Finset.range dim)
      (fun i => a i) (fun i => b i)
    rw [sumSq_eq_sum_sq, sumSq_eq_sum_sq]
    unfold dotP
    exact h

theorem cosineSim_eq (dim : ℕ) (a b : Vec) :
    cosineSim dim a b =
      dotP dim a b /
        (if Real.sqrt (sumSq dim a) * Real.sqrt (sumSq dim b) = 0 then 1
         else Real.sqrt (sumSq dim a) * Real.sqrt (sumSq dim b)) := rfl

theorem sumSq_eq_zero_of_sqrt (dim : ℕ) (v : Vec) (h : Real.sqrt (sumSq dim v) = 0) :
    sumSq dim v = 0 :=
  le_antisymm (Real.sqrt_eq_zero'.mp h) (sumSq_nonneg dim v)

theorem dotP_zero_left (dim : ℕ) (a b : Vec) (h : ∀ i, i < dim → a i = 0) :
    dotP dim a b = 0 :=
  Finset.sum_eq_zero fun i hi => by rw [h i (Finset.mem_range.mp hi), zero_mul]

theorem dotP_zero_right (dim : ℕ) (a b : Vec) (h : ∀ i, i < dim → b i = 0) :
    dotP dim a b = 0 :=
  Finset.sum_eq_zero fun i hi => by rw [h i (Finset.mem_range.mp hi), mul_zero]

theorem cosineSim_bounds (dim : ℕ) (a b : Vec) :
    -1 ≤ cosineSim dim a b ∧ cosineSim dim a b ≤ 1 := by
  rw [cosineSim_eq]
  by_cases h0 : Real.sqrt (sumSq dim a) * Real.sqrt (sumSq dim b) = 0
  · rw [if_pos h0]
    have hdot0 : dotP dim a b = 0 := by
      rcases mul_eq_zero.mp h0 with h | h
      · exact dotP_zero_left dim a b
          ((sumSq_eq_zero_iff dim a).mp (sumSq_eq_zero_of_sqrt dim a h))
      · exact dotP_zero_right dim a b
          ((sumSq_eq_zero_iff dim b).mp (sumSq_eq_zero_of_sqrt dim b h))
    rw [hdot0]
    norm_num
  · rw [if_neg h0]
    have hnn : 0 ≤ Real.sqrt (sumSq dim a) * Real.sqrt (sumSq dim b) :=
      mul_nonneg (Real.sqrt_nonneg _) (Real.sqrt_nonneg _)
    have hpos : 0 < Real.sqrt (sumSq dim a) * Real.sqrt (sumSq dim b) :=
      lt_of_le_of_ne hnn (Ne.symm h0)
    have habs : |dotP dim a b / (Real.sqrt (sumSq dim a) * Real.sqrt (sumSq dim b))| ≤ 1 := by
      rw [abs_div, abs_of_pos hpos]
      exact (div_le_one hpos).mpr (abs_dotP_le dim a b)
    exact abs_le.mp habs

theorem cosineSim_self (dim : ℕ) (a : Vec) (h : sumSq dim a ≠ 0) :
    cosineSim dim a a = 1 := by
  rw [cosineSim_eq]
  have hdot : dotP dim a a = sumSq dim a := rfl
  have hden : Real.sqrt (sumSq dim a) * Real.sqrt (sumSq dim a) = sumSq dim a :=
    Real.mul_self_sqrt (sumSq_nonneg dim a)
  rw [hdot, hden, if_neg h, div_self h]

theorem cosineSim_zero_left (dim : ℕ) (a b : Vec) (h : ∀ i, i < dim → a i = 0) :
    cosineSim dim a b = 0 := by
  rw [cosineSim_eq, dotP_zero_left dim a b h, zero_div]

theorem cosineSim_zero_right (dim : ℕ) (a b : Vec) (h : ∀ i, i < dim → b i = 0) :
    cosineSim dim a b = 0 := by
  rw [cosineSim_eq, dotP_zero_right dim a b h, zero_div]

/-- The similarity between a positive rescaling of a non-zero vector and the
vector itself is exactly 1. -/
theorem cosineSim_scaled (dim : ℕ) (a b : Vec) (c : ℝ) (hc : 0 < c)
    (hb : 0 < sumSq dim b) (ha : ∀ j, a j = b j * c) : cosineSim dim a b = 1 := by
  rw [cosineSim_eq]
  have hA : sumSq dim a = sumSq dim b * (c * c) := by
    unfold sumSq
    rw [Finset.sum_mul]
    exact Finset.sum_congr rfl fun i _ => by rw [ha i]; ring
  have hdot : dotP dim a b = sumSq dim b * c := by
    unfold dotP sumSq
    rw [Finset.sum_mul]
    exact Finset.sum_congr rfl fun i _ => by rw [ha i]; ring
  have hsqrtA : Real.sqrt (sumSq dim a) = Real.sqrt (sumSq dim b) * c := by
    rw [hA, show c * c = c ^ 2 by ring, Real.sqrt_mul (sumSq_nonneg dim b),
      Real.sqrt_sq hc.le]
  have hden : Real.sqrt (sumSq dim a) * Real.sqrt (sumSq dim b) = sumSq dim b * c := by
    rw [hsqrtA, show Real.sqrt (sumSq dim b) * c * Real.sqrt (sumSq dim b)
      = Real.sqrt (sumSq dim b) * Real.sqrt (sumSq dim b) * c by ring,
      Real.mul_self_sqrt hb.le]
  have hne : sumSq dim b * c ≠ 0 := (mul_pos hb hc).ne'
  rw [hdot, hden, if_neg hne, div_self hne]

theorem sumSq_div (dim : ℕ) (v : Vec) (m : ℝ) :
    sumSq dim (fun j => v j / m) = sumSq dim v / (m * m) := by
  unfold sumSq
  rw [Finset.sum_div]
  exact Finset.sum_congr rfl fun i _ => by
    show v i / m * (v i / m) = v i * v i / (m * m)
    ring

/-- Dividing a vector of positive sum of squares by its Euclidean norm
yields a vector of Euclidean norm exactly 1. -/
theorem sqrt_sumSq_div_norm (dim : ℕ) (v : Vec) (h : 0 < sumSq dim v) :
    Real.sqrt (sumSq dim (fun j => v j / Real.sqrt (sumSq dim v))) = 1 := by
  have hq : sumSq dim (fun j => v j / Real.sqrt (sumSq dim v)) = 1 := by
    rw [sumSq_div, Real.mul_self_sqrt h.le]
    exact div_self h.ne'
  rw [hq, Real.sqrt_one]

/-! ## Claims -/

/-- **C9** — Cosine similarity contract: `cosineSimilarity` returns
`dot(a,b) / (||a||*||b||)` with the denominator guarded to 1 when either
norm is zero (that formula is `cosineSim`'s definition, restated here as the
first conjunct), so for any two vectors of the shared dimension the result
lies in `[-1, 1]`, equals 1 for a non-zero vector compared with itself, and
equals 0 whenever either argument is the zero vector. -/
theorem claim_C9 (dim : ℕ) (a b : Vec) :
    (cosineSim dim a b =
      dotP dim a b /
        (if Real.sqrt (sumSq dim a) * Real.sqrt (sumSq dim b) = 0 then 1
         else Real.sqrt (sumSq dim a) * Real.sqrt (sumSq dim b))) ∧
    (-1 ≤ cosineSim dim a b ∧ cosineSim dim a b ≤ 1) ∧
    (sumSq dim a ≠ 0 → cosineSim dim a a = 1) ∧
    ((∀ i, i < dim → a i = 0) → cosineSim dim a b = 0 ∧ cosineSim dim b a = 0) :=
  ⟨cosineSim_eq dim a b, cosineSim_bounds dim a b, cosineSim_self dim a,
   fun h => ⟨cosineSim_zero_left dim a b h, cosineSim_zero_right dim b a h⟩⟩

/-- Witness for C9 at a concrete input: the constant-1 two-dimensional
vector has self-similarity 1, and the zero vector has similarity 0 with
it. -/
theorem claim_C9_witness :
    cosineSim 2 (fun _ => 1) (fun _ => 1) = 1 ∧
    cosineSim 2 zeroVec (fun _ => 1) = 0 := by
  have ha : sumSq 2 (fun _ => (1 : ℝ)) ≠ 0 := by
    simp [sumSq, Finset.sum_range_succ]
  have hz : ∀ i, i < 2 → zeroVec i = 0 := fun i _ => rfl
  exact ⟨(claim_C9 2 (fun _ => 1) (fun _ => 1)).2.2.1 ha,
    ((claim_C9 2 zeroVec (fun _ => 1)).2.2.2 hz).1⟩

/-- **C8, counterexample** — the claim says comparing vectors of different
lengths "fails loudly (precondition violation)"; in fact the movie
`cosineSimilarity` handles the mismatched pair `[1]` / `[1, 0]` silently,
returning the ordinary value 0 (no error of any kind). -/
theorem claim_C8_counterexample :
    ([(1 : ℝ)].length ≠ [(1 : ℝ), 0].length) ∧ movieCosineSimList [1] [1, 0] = 0 := by
  constructor
  · norm_num
  · rw [movieCosineSimList, if_pos (by norm_num)]

/-- **C8, amended** — dimension mismatch is handled *silently*, not loudly:
the movie `cosineSimilarity` returns 0 for vectors of different lengths, and
the music `cosineSimilarity` (which has no guard) iterates over the first
vector's length only, so when the first vector is at most as long as the
second it silently computes on the truncated second vector. -/
theorem claim_C8_amended (a b : List ℝ) :
    (a.length ≠ b.length → movieCosineSimList a b = 0) ∧
    (a.length ≤ b.length →
      musicCosineSimList a b = musicCosineSimList a (b.take a.length)) := by
  constructor
  · intro h
    rw [movieCosineSimList, if_pos h]
  · intro h
    have hget : ∀ i ∈ Finset.range a.length,
        (b.take a.length).getD i 0 = b.getD i 0 := by
      intro i hi
      have hi' : i < a.length := Finset.mem_range.mp hi
      rw [List.getD_eq_getD_get?, List.getD_eq_getD_get?, List.get?_eq_getElem?,
        List.get?_eq_getElem?, List.getElem?_take_of_lt hi']
    have h1 : (∑ i ∈ Finset.range a.length, a.getD i 0 * (b.take a.length).getD i 0)
        = ∑ i ∈ Finset.range a.length, a.getD i 0 * b.getD i 0 :=
      Finset.sum_congr rfl fun i hi => by rw [hget i hi]
    have h2 : (∑ i ∈ Finset.range a.length,
          (b.take a.length).getD i 0 * (b.take a.length).getD i 0)
        = ∑ i ∈ Finset.range a.length, b.getD i 0 * b.getD i 0 :=
      Finset.sum_congr rfl fun i hi => by rw [hget i hi]
    rw [musicCosineSimList, musicCosineSimList, h1, h2]

/-- Witness for C8 at a concrete input: `[2]` against `[2, 3]`. -/
theorem claim_C8_witness :
    movieCosineSimList [2] [2, 3] = 0 ∧
    musicCosineSimList [2] [2, 3] = musicCosineSimList [2] ([2, 3].take [(2 : ℝ)].length) := by
  exact ⟨(claim_C8_amended [2] [2, 3]).1 (by norm_num),
    (claim_C8_amended [2] [2, 3]).2 (by norm_num)⟩

/-- **C2, amended** — the Feature Hasher distributes the lowercased string's
character codes additively, each processed character `i` contributing
`(code / 255) * weight`; but the wrapping differs from the claim: the
*music* variant wraps modulo the **whole vector length** (coordinate
`(offset + i) % dim`), and the *movie* variant writes to
`offset + (i % 16)` while processing **only** the characters `i` with
`offset + i < dim` — trailing characters of long strings contribute nothing.
Empty strings contribute nothing in both variants. -/
theorem claim_C2_amended (dim : ℕ) (str : Str) (v : Vec) (offset : ℕ) (w : ℝ) (j : ℕ) :
    (hashToVector dim str v offset w j =
      v j + w * ∑ i ∈ Finset.range str.length,
        (if (offset + i) % dim = j then (codeAt (jsToLower str) i : ℝ) / 255 else 0)) ∧
    (movieHashToVector dim str v offset w j =
      v j + w * ∑ i ∈ Finset.range str.length,
        (if offset + i < dim ∧ offset + i % 16 = j then
          (codeAt (jsToLower str) i : ℝ) / 255 else 0)) ∧
    hashToVector dim [] v offset w = v ∧
    movieHashToVector dim [] v offset w = v := by
  have hlen : (jsToLower str).length = str.length := List.length_map _ _
  refine ⟨?_, ?_, rfl, rfl⟩
  · rw [hashToVector, musicHashChars_apply, hlen]
  · rw [movieHashToVector, movieHashChars_apply, hlen]
    simp only [Nat.zero_add]

/-- **C2, counterexample** — "each character contributing ... to its target
coordinate" fails for the movie variant: hashing 33 copies of `'a'` at
offset 32 into a 64-long vector, coordinate 32 receives contributions from
characters 0 and 16 only; under the claimed contract (band of 16 wrapping
modulo the band length, every character contributing, as expressed by
`specHashToVector`) character 32 would also land there. -/
theorem claim_C2_counterexample :
    movieHashToVector 64 (List.replicate 33 'a') zeroVec 32 1 32 ≠
      specHashToVector (List.replicate 33 'a') zeroVec 32 1 32 := by
  have hlower : jsToLower (List.replicate 33 'a') = List.replicate 33 'a' := by decide
  have hcode : ∀ i ∈ Finset.range 33, codeAt (List.replicate 33 'a') i = 97 := by decide
  rw [movieHashToVector, specHashToVector, hlower, movieHashChars_apply,
    specHashChars_apply]
  have e1 : (∑ i ∈ Finset.range (List.replicate 33 'a').length,
        if 32 + (0 + i) < 64 ∧ 32 + (0 + i) % 16 = 32 then
          (codeAt (List.replicate 33 'a') i : ℝ) / 255 else 0)
      = ∑ i ∈ (Finset.range 33).filter
          (fun i => 32 + (0 + i) < 64 ∧ 32 + (0 + i) % 16 = 32), (97 : ℝ) / 255 := by
    rw [List.length_replicate, ← Finset.sum_filter]
    refine Finset.sum_congr rfl fun i hi => ?_
    rw [hcode i (Finset.mem_of_mem_filter i hi)]
    norm_num
  have e2 : (∑ i ∈ Finset.range (List.replicate 33 'a').length,
        if 32 + (0 + i) % 16 = 32 then (codeAt (List.replicate 33 'a') i : ℝ) / 255 else 0)
      = ∑ i ∈ (Finset.range 33).filter (fun i => 32 + (0 + i) % 16 = 32), (97 : ℝ) / 255 := by
    rw [List.length_replicate, ← Finset.sum_filter]
    refine Finset.sum_congr rfl fun i hi => ?_
    rw [hcode i (Finset.mem_of_mem_filter i hi)]
    norm_num
  rw [e1, e2, Finset.sum_const, Finset.sum_const]
  have c1 : ((Finset.range 33).filter
      (fun i => 32 + (0 + i) < 64 ∧ 32 + (0 + i) % 16 = 32)).card = 2 := by decide
  have c2 : ((Finset.range 33).filter (fun i => 32 + (0 + i) % 16 = 32)).card = 3 := by
    decide
  rw [c1, c2]
  show zeroVec 32 + 1 * (2 • ((97 : ℝ) / 255)) ≠ zeroVec 32 + 1 * (3 • ((97 : ℝ) / 255))
  have hz : zeroVec 32 = 0 := rfl
  rw [hz]
  norm_num

/-- **C4, counterexample** — increasing a record's `rating` can *decrease*
its aggregation weight, because `parseFloat(rating) || 3` treats a parsed
rating of 0 (falsy) as missing and substitutes 3: with
`completionRate = 1`, no like/skip/repeat, raising the rating field from 0
to 1 drops the effective rating from the default 3 to 1, and the weight from
`1.5 * (0.6 + (3/5)*0.8) = 1.62` to `1.5 * (0.6 + (1/5)*0.8) = 1.14`. -/
theorem claim_C4_counterexample :
    (0 : ℚ) < 1 ∧
    recWeight ⟨['x'], [], some 1, some 1, some 0, some 0, some 0⟩ <
      recWeight ⟨['x'], [], some 1, some 0, some 0, some 0, some 0⟩ := by
  constructor
  · norm_num
  · norm_num [recWeight, jsOrQ, jsOrZ]

/-- `parseInt(x) || 0` applied to a parsed integer is the integer itself
(the 0-falsy defaulting is the identity when the default is 0). -/
theorem jsOrZ_some_zero (x : ℤ) : jsOrZ (some x) 0 = x := by
  rw [jsOrZ]
  split_ifs with h
  · exact h.symm
  · rfl

/-- **C4, amended** — the monotonicity holds once the `|| default`
zero-swallowing cannot fire, i.e. for records whose parsed `completionRate`
and `rating` are positive (so the parsed value is the effective value):
holding all other fields fixed, increasing `completionRate`, `rating`, or
`likedFlag` never decreases the aggregation weight, and setting `skipFlag`
(from 0 to any non-zero value) strictly decreases it via the 0.3
multiplier. -/
theorem claim_C4_amended (t a : Str) (cr cr' rat rat' : ℚ) (lk lk' sk rp s : ℤ)
    (hcr : 0 < cr) (hcrle : cr ≤ cr') (hrat : 0 < rat) (hratle : rat ≤ rat')
    (hlk : 0 ≤ lk) (hlkle : lk ≤ lk') (hrp : 0 ≤ rp) (hs : s ≠ 0) :
    (recWeight ⟨t, a, some cr, some rat, some lk, some sk, some rp⟩ ≤
      recWeight ⟨t, a, some cr', some rat, some lk, some sk, some rp⟩) ∧
    (recWeight ⟨t, a, some cr, some rat, some lk, some sk, some rp⟩ ≤
      recWeight ⟨t, a, some cr, some rat', some lk, some sk, some rp⟩) ∧
    (recWeight ⟨t, a, some cr, some rat, some lk, some sk, some rp⟩ ≤
      recWeight ⟨t, a, some cr, some rat, some lk', some sk, some rp⟩) ∧
    (recWeight ⟨t, a, some cr, some rat, some lk, some s, some rp⟩ <
      recWeight ⟨t, a, some cr, some rat, some lk, some 0, some rp⟩) := by
  have hcr0 : cr ≠ 0 := hcr.ne'
  have hcr0' : cr' ≠ 0 := (lt_of_lt_of_le hcr hcrle).ne'
  have hrat0 : rat ≠ 0 := hrat.ne'
  have hrat0' : rat' ≠ 0 := (lt_of_lt_of_le hrat hratle).ne'
  have hF : (0 : ℚ) < 3/5 + rat / 5 * (4/5) := by linarith
  have hF' : (0 : ℚ) < 3/5 + rat' / 5 * (4/5) := by linarith
  have hcrq : (0 : ℚ) < 1/2 + cr := by linarith
  have hminq : (0 : ℚ) ≤ ((min rp 3 : ℤ) : ℚ) := by
    exact_mod_cast le_min hrp (by norm_num : (0:ℤ) ≤ 3)
  have hlkq : (0 : ℚ) ≤ (lk : ℚ) := by exact_mod_cast hlk
  have hlkleq : (lk : ℚ) ≤ (lk' : ℚ) := by exact_mod_cast hlkle
  refine ⟨?_, ?_, ?_, ?_⟩
  · have hkey : (1/2 + cr) * (3/5 + rat / 5 * (4/5)) ≤
        (1/2 + cr') * (3/5 + rat / 5 * (4/5)) :=
      mul_le_mul_of_nonneg_right (by linarith) hF.le
    simp only [recWeight, jsOrQ, jsOrZ_some_zero, if_neg hcr0, if_neg hcr0', if_neg hrat0]
    split_ifs <;> nlinarith [hkey]
  · have hkey : (1/2 + cr) * (3/5 + rat / 5 * (4/5)) ≤
        (1/2 + cr) * (3/5 + rat' / 5 * (4/5)) :=
      mul_le_mul_of_nonneg_left (by linarith) hcrq.le
    simp only [recWeight, jsOrQ, jsOrZ_some_zero, if_neg hcr0, if_neg hrat0, if_neg hrat0']
    split_ifs <;> nlinarith [hkey]
  · simp only [recWeight, jsOrQ, jsOrZ_some_zero, if_neg hcr0, if_neg hrat0]
    split_ifs <;> nlinarith [hlkleq, hlkq]
  · have hApos : (0 : ℚ) < 1 * (1/2 + cr) * (3/5 + rat / 5 * (4/5)) := by
      nlinarith [mul_pos hcrq hF]
    simp only [recWeight, jsOrQ, jsOrZ_some_zero, if_neg hcr0, if_neg hrat0, if_neg hs,
      eq_self_iff_true, if_true]
    nlinarith [hApos, hminq, hlkq]

/-- Witness for C4 at concrete field values: `completionRate` 1/2 → 1,
`rating` 1 → 2, `likedFlag` 0 → 1, `skipFlag` 0 → 1, `repeatCount` 0. -/
theorem claim_C4_witness :
    (recWeight ⟨['x'], [], some (1/2), some 1, some 0, some 0, some 0⟩ ≤
      recWeight ⟨['x'], [], some 1, some 1, some 0, some 0, some 0⟩) ∧
    (recWeight ⟨['x'], [], some (1/2), some 1, some 0, some 0, some 0⟩ ≤
      recWeight ⟨['x'], [], some (1/2), some 2, some 0, some 0, some 0⟩) ∧
    (recWeight ⟨['x'], [], some (1/2), some 1, some 0, some 0, some 0⟩ ≤
      recWeight ⟨['x'], [], some (1/2), some 1, some 1, some 0, some 0⟩) ∧
    (recWeight ⟨['x'], [], some (1/2), some 1, some 0, some 1, some 0⟩ <
      recWeight ⟨['x'], [], some (1/2), some 1, some 0, some 0, some 0⟩) :=
  claim_C4_amended ['x'] [] (1/2) 1 1 2 0 1 0 0 1 (by norm_num) (by norm_num)
    (by norm_num) (by norm_num) (by norm_num) (by norm_num) (by norm_num) (by norm_num)

/-- **C5** — Movie exclusion: for every dataset state, user and limit, no
movie id present in that user's rating history appears in the list returned
by `getRecommendations`; already-rated ids are removed from the candidate
set (drawn from the embedding-table keys) before scoring. -/
theorem claim_C5 (rs : List MovieRating) (movies : List MovieMeta) (nowMs : ℚ)
    (u : Str) (limit : ℕ) (x : MovieRec)
    (hx : x ∈ getRecommendations rs movies nowMs u limit) :
    x.movieId ∉ (rs.filter fun r => r.userId == u).map (·.movieId) := by
  simp only [getRecommendations] at hx
  have hx1 := List.mem_of_mem_take hx
  rw [mem_sortDescBy] at hx1
  obtain ⟨m, hm, rfl⟩ := List.mem_map.mp hx1
  obtain ⟨hmem, hflt⟩ := List.mem_filter.mp hm
  simp only [Bool.not_eq_true'] at hflt
  simp at hflt
  simpa using hflt

/-- Witness for C5: with ratings `u → 1` and `w → 2`, the recommendation
list for `u` is non-empty and its member's id avoids `u`'s rated ids. -/
theorem claim_C5_witness :
    ∃ x ∈ getRecommendations
        [⟨['u'], ['1'], 5, 0⟩, ⟨['w'], ['2'], 5, 0⟩] [] 0 ['u'] 20,
      x.movieId ∉
        (([⟨['u'], ['1'], 5, 0⟩, ⟨['w'], ['2'], 5, 0⟩] :
          List MovieRating).filter fun r => r.userId == ['u']).map (·.movieId) := by
  have hne : getRecommendations
      [⟨['u'], ['1'], 5, 0⟩, ⟨['w'], ['2'], 5, 0⟩] [] 0 ['u'] 20 ≠ [] := by
    intro h
    exact absurd (congrArg List.length h) (by decide)
  obtain ⟨x, hx⟩ := List.exists_mem_of_ne_nil _ hne
  exact ⟨x, hx, claim_C5 _ _ _ _ _ x hx⟩

/-- **C10** — after `trainMovieEmbeddings`, every key of the movie-embedding
table is a movie id occurring in at least one rating record; consequently an
id absent from the ratings (e.g. present only in the metadata CSV) receives
no embedding and can never appear in `getRecommendations`' output, whose
candidates are drawn solely from the table's keys. -/
theorem claim_C10 (rs : List MovieRating) (movies : List MovieMeta) (nowMs : ℚ)
    (u : Str) (limit : ℕ) (m : Str) :
    (∀ k ∈ (trainMovieEmbeddings rs movies nowMs).map Prod.fst,
      k ∈ rs.map (·.movieId)) ∧
    (m ∉ rs.map (·.movieId) →
      m ∉ (trainMovieEmbeddings rs movies nowMs).map Prod.fst ∧
      ∀ x ∈ getRecommendations rs movies nowMs u limit, x.movieId ≠ m) := by
  have hkeys : (trainMovieEmbeddings rs movies nowMs).map Prod.fst
      = jsSetDedup (rs.map (·.movieId)) := by
    rw [trainMovieEmbeddings, List.map_map]
    have hcomp : (Prod.fst ∘ fun m => (m, createMovieEmbedding rs movies nowMs m))
        = id := funext fun m => rfl
    rw [hcomp, List.map_id]
  constructor
  · intro k hk
    rw [hkeys] at hk
    exact (mem_jsSetDedup k _).mp hk
  · intro hm
    constructor
    · rw [hkeys, mem_jsSetDedup]
      exact hm
    · intro x hx
      simp only [getRecommendations] at hx
      have hx1 := List.mem_of_mem_take hx
      rw [mem_sortDescBy] at hx1
      obtain ⟨m', hm', rfl⟩ := List.mem_map.mp hx1
      obtain ⟨hmem, _⟩ := List.mem_filter.mp hm'
      rw [hkeys] at hmem
      have : m' ∈ rs.map (·.movieId) := (mem_jsSetDedup m' _).mp hmem
      intro hEq
      have hEq' : m' = m := hEq
      exact hm (hEq' ▸ this)

/-- Witness for C10: one rating of movie `1` — it is the only table key,
and the unrated id `9` gets no embedding. -/
theorem claim_C10_witness :
    (['1'] ∈ ([⟨['u'], ['1'], 5, 0⟩] : List MovieRating).map (·.movieId)) ∧
    ['9'] ∉ (trainMovieEmbeddings [⟨['u'], ['1'], 5, 0⟩] [] 0).map Prod.fst :=
  ⟨(claim_C10 [⟨['u'], ['1'], 5, 0⟩] [] 0 ['u'] 20 ['1']).1 ['1'] (by decide),
   ((claim_C10 [⟨['u'], ['1'], 5, 0⟩] [] 0 ['u'] 20 ['9']).2 (by decide)).1⟩

theorem sumSq_congr (dim : ℕ) (v w : Vec) (h : ∀ j, j < dim → v j = w j) :
    sumSq dim v = sumSq dim w :=
  Finset.sum_congr rfl fun i hi => by rw [h i (Finset.mem_range.mp hi)]

theorem sumSq_smul (dim : ℕ) (v : Vec) (c : ℝ) :
    sumSq dim (fun j => v j * c) = sumSq dim v * (c * c) := by
  unfold sumSq
  rw [Finset.sum_mul]
  exact Finset.sum_congr rfl fun i _ => by
    show v i * c * (v i * c) = v i * v i * (c * c)
    ring

/-- `createUserEmbedding` unfolded over its aggregation pair. -/
theorem createUserEmbedding_eq (table : List (Str × Vec)) (history : List HistRecord) :
    createUserEmbedding table history =
      if (aggPair table history).2 = 0 then zeroVec
      else fun j => (aggPair table history).1 j /
        (if Real.sqrt (sumSq 128 (aggPair table history).1) = 0 then 1
         else Real.sqrt (sumSq 128 (aggPair table history).1)) := rfl

/-- The one-song catalog of the spec's music example scenario:
`{title: "A", artist: "B", genre: "Pop"}`. -/
def exampleSong : Song := { title := ['A'], artist := ['B'], genre := ['P', 'o', 'p'] }

/-- The example scenario's single listening record for that song:
`completionRate = 1, rating = 5, likedFlag = 1, skipFlag = 0,
repeatCount = 0`. -/
def exampleRecord : HistRecord :=
  { title := ['A'], artist := ['B'], completionRate := some 1, rating := some 5,
    likedFlag := some 1, skipFlag := some 0, repeatCount := some 0 }

/-- A listening record referencing a song absent from the catalog. -/
def unknownRecord : HistRecord :=
  { title := ['x'], artist := ['y'], completionRate := some 1, rating := some 5,
    likedFlag := some 1, skipFlag := some 0, repeatCount := some 0 }

/-- Coordinate 115 of the example song's embedding holds the rescaled
default rating `3 / 5` (no other write of the encoder touches it). -/
theorem exampleSong_115 : createSongEmbedding exampleSong 115 = ((3 / 5 : ℚ) : ℝ) := by
  simp [createSongEmbedding, exampleSong, hashToVector, jsToLower, musicHashChars,
    updv, setv, zeroVec, jsOrQ, jsOrZ]

/-- The example song's embedding has positive sum of squares. -/
theorem exampleSong_sumSq_pos : 0 < sumSq 128 (createSongEmbedding exampleSong) := by
  refine sumSq_pos_of 128 _ 115 (by norm_num) ?_
  rw [exampleSong_115]
  norm_num

/-- The example record's engagement weight:
`(0.5 + 1) * (0.6 + 1 * 0.8) + 1 * 0.5 + 0 = 2.6`. -/
theorem exampleRecord_weight : recWeight exampleRecord = 13 / 5 := by
  norm_num [recWeight, exampleRecord, jsOrQ, jsOrZ]

/-- The aggregation pair of the example scenario: one record, weight 13/5,
accumulating the song embedding scaled by that weight. -/
theorem exampleAggPair :
    aggPair (trainSongEmbeddings [exampleSong]) [exampleRecord] =
      (fun j => zeroVec j + createSongEmbedding exampleSong j * ((recWeight exampleRecord : ℚ) : ℝ),
       0 + recWeight exampleRecord) := rfl

theorem exampleAggPair_snd :
    (aggPair (trainSongEmbeddings [exampleSong]) [exampleRecord]).2 = 13 / 5 := by
  rw [exampleAggPair]
  rw [exampleRecord_weight]
  norm_num

theorem exampleAggPair_fst (j : ℕ) :
    (aggPair (trainSongEmbeddings [exampleSong]) [exampleRecord]).1 j =
      createSongEmbedding exampleSong j * ((13 / 5 : ℚ) : ℝ) := by
  rw [exampleAggPair, exampleRecord_weight]
  show 0 + createSongEmbedding exampleSong j * ((13 / 5 : ℚ) : ℝ) = _
  rw [zero_add]

theorem exampleAgg_sumSq_pos :
    0 < sumSq 128 (aggPair (trainSongEmbeddings [exampleSong]) [exampleRecord]).1 := by
  rw [sumSq_congr 128 _ (fun j => createSongEmbedding exampleSong j * ((13 / 5 : ℚ) : ℝ))
    (fun j _ => exampleAggPair_fst j)]
  rw [sumSq_smul]
  have hc : (0 : ℝ) < ((13 / 5 : ℚ) : ℝ) * ((13 / 5 : ℚ) : ℝ) := by
    push_cast
    norm_num
  exact mul_pos exampleSong_sumSq_pos hc

/-- In the example scenario the user embedding is the song embedding scaled
by the positive factor `(13/5) / ‖agg‖`, so its similarity with the song's
own embedding is exactly 1. -/
theorem exampleCosine :
    cosineSim 128 (createUserEmbedding (trainSongEmbeddings [exampleSong]) [exampleRecord])
      (createSongEmbedding exampleSong) = 1 := by
  have htw : (aggPair (trainSongEmbeddings [exampleSong]) [exampleRecord]).2 ≠ 0 := by
    rw [exampleAggPair_snd]
    norm_num
  set S := sumSq 128 (aggPair (trainSongEmbeddings [exampleSong]) [exampleRecord]).1 with hS
  have hSpos : 0 < S := exampleAgg_sumSq_pos
  have hM : (0 : ℝ) < Real.sqrt S := Real.sqrt_pos.mpr hSpos
  have hMne : Real.sqrt S ≠ 0 := hM.ne'
  have hemb : createUserEmbedding (trainSongEmbeddings [exampleSong]) [exampleRecord]
      = fun j => (aggPair (trainSongEmbeddings [exampleSong]) [exampleRecord]).1 j /
        Real.sqrt S := by
    rw [createUserEmbedding_eq, if_neg htw]
    simp only [← hS, if_neg hMne]
  have hc : (0 : ℝ) < ((13 / 5 : ℚ) : ℝ) / Real.sqrt S := by
    apply div_pos _ hM
    push_cast
    norm_num
  refine cosineSim_scaled 128 _ _ (((13 / 5 : ℚ) : ℝ) / Real.sqrt S) hc
    exampleSong_sumSq_pos fun j => ?_
  rw [hemb]
  show (aggPair (trainSongEmbeddings [exampleSong]) [exampleRecord]).1 j / Real.sqrt S
    = createSongEmbedding exampleSong j * (((13 / 5 : ℚ) : ℝ) / Real.sqrt S)
  rw [exampleAggPair_fst j]
  ring

/-- **C1** — Music example scenario: with the one-song catalog
`{title:"A", artist:"B", genre:"Pop"}` and a single history record for it
with `completionRate=1, rating=5, likedFlag=1, skipFlag=0, repeatCount=0`,
the record's aggregation weight is `(0.5+1)*(0.6+1*0.8)+1*0.5+0 = 2.6`, the
normalized user embedding has cosine similarity exactly 1 with the song's
embedding (the floating-point code produces ≈1.0), and the song ranks first
— the recommendation list is exactly that song with score 1. -/
theorem claim_C1 :
    recWeight exampleRecord = 26 / 10 ∧
    cosineSim 128 (createUserEmbedding (trainSongEmbeddings [exampleSong]) [exampleRecord])
      (createSongEmbedding exampleSong) = 1 ∧
    (recommendSongs [exampleSong] [exampleRecord] 10).map
        (fun x => (x.id, x.similarity_score))
      = [(makeSongId exampleSong.title exampleSong.artist, 1)] := by
  refine ⟨by rw [exampleRecord_weight]; norm_num, exampleCosine, ?_⟩
  have hlist : (recommendSongs [exampleSong] [exampleRecord] 10).map
      (fun x => (x.id, x.similarity_score))
      = [(makeSongId exampleSong.title exampleSong.artist,
          cosineSim 128
            (createUserEmbedding (trainSongEmbeddings [exampleSong]) [exampleRecord])
            (createSongEmbedding exampleSong))] := rfl
  rw [hlist, exampleCosine]

/-- **C3, counterexample** — the claim asserts norm 1 for *any* non-empty
history, but a non-empty history whose only record references a song absent
from the embedding table aggregates total weight 0, so `createUserEmbedding`
returns the all-zero vector, of norm 0. -/
theorem claim_C3_counterexample :
    ([unknownRecord] : List HistRecord) ≠ [] ∧
    Real.sqrt (sumSq 128
      (createUserEmbedding (trainSongEmbeddings [exampleSong]) [unknownRecord])) ≠ 1 := by
  constructor
  · simp
  · have htw : (aggPair (trainSongEmbeddings [exampleSong]) [unknownRecord]).2 = 0 := rfl
    rw [createUserEmbedding_eq, if_pos htw]
    have hz : sumSq 128 zeroVec = 0 := by
      simp [sumSq, zeroVec]
    rw [hz, Real.sqrt_zero]
    norm_num

/-- **C3, amended** — for an empty history (and more generally whenever the
aggregated total weight is 0, e.g. a history of unknown songs) the user
embedding is the all-zero 128-dimension vector; whenever the total weight is
non-zero and the accumulated vector is non-zero, the embedding has Euclidean
norm exactly 1 (the floating-point code is within tolerance of 1). -/
theorem claim_C3_amended (table : List (Str × Vec)) (history : List HistRecord) :
    createUserEmbedding table [] = zeroVec ∧
    ((aggPair table history).2 = 0 → createUserEmbedding table history = zeroVec) ∧
    ((aggPair table history).2 ≠ 0 → 0 < sumSq 128 (aggPair table history).1 →
      Real.sqrt (sumSq 128 (createUserEmbedding table history)) = 1) := by
  refine ⟨rfl, ?_, ?_⟩
  · intro h
    rw [createUserEmbedding_eq, if_pos h]
  · intro h1 h2
    have hMne : Real.sqrt (sumSq 128 (aggPair table history).1) ≠ 0 :=
      (Real.sqrt_pos.mpr h2).ne'
    rw [createUserEmbedding_eq, if_neg h1]
    simp only [if_neg hMne]
    exact sqrt_sumSq_div_norm 128 _ h2

/-- Witness for C3 at the example scenario: its history has non-zero total
weight and non-zero accumulated vector, and the resulting user embedding
has norm exactly 1. -/
theorem claim_C3_witness :
    (aggPair (trainSongEmbeddings [exampleSong]) [exampleRecord]).2 ≠ 0 ∧
    0 < sumSq 128 (aggPair (trainSongEmbeddings [exampleSong]) [exampleRecord]).1 ∧
    Real.sqrt (sumSq 128
      (createUserEmbedding (trainSongEmbeddings [exampleSong]) [exampleRecord])) = 1 := by
  have h1 : (aggPair (trainSongEmbeddings [exampleSong]) [exampleRecord]).2 ≠ 0 := by
    rw [exampleAggPair_snd]
    norm_num
  exact ⟨h1, exampleAgg_sumSq_pos,
    (claim_C3_amended (trainSongEmbeddings [exampleSong]) [exampleRecord]).2.2 h1
      exampleAgg_sumSq_pos⟩

/-- `collabFill` writes only coordinates `10 + idx, …, 10 + idx + len - 1`. -/
theorem collabFill_unchanged (us : List Str) (idx : ℕ) (v : Vec) (j : ℕ)
    (hj : j < 10 + idx ∨ 10 + idx + us.length ≤ j) :
    collabFill us idx v j = v j := by
  induction us generalizing idx v with
  | nil => rfl
  | cons u us ih =>
      rw [List.length_cons] at hj
      rw [collabFill, ih (idx + 1) _ (by omega)]
      rw [setv_apply, if_neg (by omega)]

/-- The movie hasher at offset `off` writes only inside `[off, off + 16)`. -/
theorem movieHashToVector_unchanged (dim : ℕ) (str : Str) (v : Vec) (offset : ℕ)
    (w : ℝ) (j : ℕ) (hj : j < offset ∨ offset + 16 ≤ j) :
    movieHashToVector dim str v offset w j = v j := by
  rw [movieHashToVector, movieHashChars_apply]
  have hz : (∑ i ∈ Finset.range (jsToLower str).length,
      if offset + (0 + i) < dim ∧ offset + (0 + i) % 16 = j then
        ((codeAt (jsToLower str) i : ℝ)) / 255 else 0) = 0 :=
    Finset.sum_eq_zero fun i _ => if_neg (by omega)
  rw [hz, mul_zero, add_zero]

/-- The temporal stage of `movieEmbeddingStats` writes only 48 and 49. -/
theorem if_setv4849_apply (c : Prop) [Decidable c] (vv : Vec) (x y : ℝ) (j : ℕ)
    (h48 : j ≠ 48) (h49 : j ≠ 49) :
    (if c then vv else setv (setv vv 48 x) 49 y) j = vv j := by
  split_ifs with h
  · rfl
  · rw [setv_apply, if_neg h49, setv_apply, if_neg h48]

/-- The scalar block writes only coordinates 0–9. -/
theorem movieStatsScalars_high (rs : List MovieRating) (m : Str) (j : ℕ)
    (hj : 10 ≤ j) : movieStatsScalars rs m j = 0 := by
  simp only [movieStatsScalars]
  rw [setv_apply, if_neg (by omega), setv_apply, if_neg (by omega),
    setv_apply, if_neg (by omega), setv_apply, if_neg (by omega),
    setv_apply, if_neg (by omega), setv_apply, if_neg (by omega),
    setv_apply, if_neg (by omega), setv_apply, if_neg (by omega),
    setv_apply, if_neg (by omega), setv_apply, if_neg (by omega)]
  rfl

/-- Above coordinate 49 the statistics-dependent portion of the movie
embedding is identically zero: the scalar, collaborative, genre and
temporal bands all live below 50. -/
theorem movieEmbeddingStats_high (rs : List MovieRating) (movies : List MovieMeta)
    (nowMs : ℚ) (m : Str) (j : ℕ) (hj : 50 ≤ j) :
    movieEmbeddingStats rs movies nowMs m j = 0 := by
  simp only [movieEmbeddingStats]
  rw [if_setv4849_apply _ _ _ _ _ (by omega) (by omega)]
  have hcollab : collabFill ((highRatingUsers rs m).take 20) 0
      (movieStatsScalars rs m) j = 0 := by
    rw [collabFill_unchanged _ _ _ _ (Or.inr (by
      have := List.length_take_le 20 (highRatingUsers rs m)
      omega))]
    exact movieStatsScalars_high rs m j (by omega)
  rcases hfind : (movies.find? fun mv => mv.movieId == m) with _ | mv
  · simp only [hfind]
    exact hcollab
  · simp only [hfind]
    split_ifs with hg
    · exact hcollab
    · rw [movieHashToVector_unchanged _ _ _ _ _ _ (Or.inr (by omega))]
      exact hcollab

/-- At offset 56 in a 64-long vector, the movie hasher contributes exactly
the code of character `k` (for `k < 8`) to coordinate `56 + k`; characters
beyond position 7 are dropped by the length guard, and short strings
contribute 0 beyond their end (`codeAt` is 0 there). -/
theorem movieHash_idband (str : Str) (v : Vec) (w : ℝ) (k : ℕ) (hk : k < 8) :
    movieHashToVector 64 str v 56 w (56 + k)
      = v (56 + k) + w * ((codeAt (jsToLower str) k : ℝ) / 255) := by
  rw [movieHashToVector, movieHashChars_apply]
  congr 1
  congr 1
  have hcond : ∀ i ∈ Finset.range (jsToLower str).length,
      (if 56 + (0 + i) < 64 ∧ 56 + (0 + i) % 16 = 56 + k then
        ((codeAt (jsToLower str) i : ℝ)) / 255 else 0)
      = (if i = k then ((codeAt (jsToLower str) i : ℝ)) / 255 else 0) := by
    intro i _
    by_cases hik : i = k
    · subst hik
      rw [if_pos (by omega : 56 + (0 + i) < 64 ∧ 56 + (0 + i) % 16 = 56 + i),
        if_pos rfl]
    · rw [if_neg hik, if_neg (by omega)]
  rw [Finset.sum_congr rfl hcond,
    Finset.sum_ite_eq' (Finset.range (jsToLower str).length) k]
  by_cases hkl : k ∈ Finset.range (jsToLower str).length
  · rw [if_pos hkl]
  · rw [if_neg hkl]
    have hc : codeAt (jsToLower str) k = 0 := by
      rw [codeAt]
      apply List.getD_eq_default
      rw [List.length_map]
      have hlen : ¬k < (jsToLower str).length := fun hlt => hkl (Finset.mem_range.mpr hlt)
      omega
    rw [hc]
    norm_num

/-- **C7, counterexample** — the claim says the id-hash band is written "for
every item id … even when the item has no statistics entry"; in fact
`createMovieEmbedding` returns early (`if (!stat) return vec;`) for an
unrated id, so for id `"a"` with no ratings at all coordinate 56 is 0,
although the id hash `('a'.charCodeAt / 255) * 0.5` is non-zero. -/
theorem claim_C7_counterexample :
    createMovieEmbedding [] [] 0 ['a'] 56 = 0 ∧
    ((charCode 'a' : ℝ) / 255) * (1 / 2) ≠ 0 := by
  constructor
  · rfl
  · have hc : charCode 'a' = 97 := rfl
    rw [hc]
    norm_num

/-- **C7, amended** — for every item id *with a statistics entry* (i.e. at
least one rating), coordinates 56–63 of the movie embedding hold exactly
the hashed id band: for `k < 8`, coordinate `56 + k` equals
`(code of character k of the lowercased id) / 255 * 0.5` (0 beyond the id's
end); for an id with no statistics the embedding is the all-zero vector and
no band is written. -/
theorem claim_C7_amended (rs : List MovieRating) (movies : List MovieMeta)
    (nowMs : ℚ) (m : Str) (k : ℕ) (hk : k < 8) (hm : hasStats rs m = true) :
    createMovieEmbedding rs movies nowMs m (56 + k)
      = (codeAt (jsToLower m) k : ℝ) / 255 * (1 / 2) := by
  rw [createMovieEmbedding, hm]
  rw [show (if !true then zeroVec
      else movieHashToVector 64 m (movieEmbeddingStats rs movies nowMs m) 56 (1/2))
    = movieHashToVector 64 m (movieEmbeddingStats rs movies nowMs m) 56 (1/2) from rfl]
  rw [movieHash_idband m _ (1/2) k hk]
  rw [movieEmbeddingStats_high rs movies nowMs m (56 + k) (by omega)]
  ring

/-- Witness for C7: one rating of movie `1`; coordinate 56 of its embedding
is the hashed first character of the id. -/
theorem claim_C7_witness :
    hasStats [(⟨['u'], ['1'], 5, 0⟩ : MovieRating)] ['1'] = true ∧
    createMovieEmbedding [⟨['u'], ['1'], 5, 0⟩] [] 0 ['1'] (56 + 0)
      = (codeAt (jsToLower ['1']) 0 : ℝ) / 255 * (1 / 2) :=
  ⟨by decide,
   claim_C7_amended [⟨['u'], ['1'], 5, 0⟩] [] 0 ['1'] 0 (by norm_num) (by decide)⟩

/-- Failing input for the movie User Encoder layout claim: one user `u`
with a single 5-star rating of movie `m`. -/
def bugRatings : List MovieRating := [⟨['u'], ['m'], 5, 0⟩]

/-- Movie `m`'s embedding has 1 at coordinate 4 (its whole rating histogram
sits in the 5-star bin). -/
theorem bugMovieEmb_4 :
    createMovieEmbedding bugRatings [] 0 ['m'] 4 = (((1 : ℚ) / (1 : ℚ) : ℚ) : ℝ) := rfl

/-- **C6** — the claim (and the source's own layout comment
`[0-4]: Rating behavior`, `[5-31]: Aggregated embeddings of liked movies`)
says coordinates 0–4 of the pre-normalization user embedding hold exactly
the five behavioral scalars; but the aggregation loop
`for (let i = 0; i < this.embeddingDim; i++) vec[i] += movieEmb[i] * weight`
starts at 0, not 5, adding the (un-averaged — the `/= totalWeight` loop does
start at 5) weighted movie embedding into the scalar slots.  At the failing
input, coordinate 4 should be the user's dislike fraction 0, but the code
computes 0 + movieEmb[4] * 1 = 1. -/
theorem claim_C6 :
    movieUserPre bugRatings [] (trainMovieEmbeddings bugRatings [] 0) ['u'] 4 = 1 ∧
    ((((bugRatings.filter fun r => r.userId == ['u']).filter
        fun r => decide (r.rating ≤ 2)).length : ℚ) /
      ((bugRatings.filter fun r => r.userId == ['u']).length : ℚ) : ℚ) = 0 ∧
    (1 : ℝ) ≠ 0 := by
  refine ⟨?_, by norm_num [bugRatings], by norm_num⟩
  have hPre : movieUserPre bugRatings [] (trainMovieEmbeddings bugRatings [] 0) ['u'] 4
      = (((0 : ℚ) / (1 : ℚ) : ℚ) : ℝ) +
        createMovieEmbedding bugRatings [] 0 ['m'] 4 * ((((5 : ℚ) - 3) / 2 : ℚ) : ℝ) := by
    with_unfolding_all rfl
  rw [hPre, bugMovieEmb_4]
  push_cast
  norm_num
